import Mathlib

/-!
Shallow embedding of the terrain-diffraction core of the go-rf repository
(package rf): the path normalizer `TerrainToPathXY` and its inverse
`UnNormalisePoint`, the unrotated-clearance normalizer `TerrainToPath`, the
Bullington Figure 12 horizon solver, the Fresnel-zone impingement scanner,
and the fading stubs.  Go float64 arithmetic is modelled by real arithmetic;
Go's error returns are modelled by `Option`; a Go `log.Panicf` abort is
modelled by the `GoOutcome.aborts` constructor.
-/

namespace RF

/-- Go's `math.Atan2 y x`: the angle of the point `(x, y)`, quadrant-correct.
Every call site in the repository has `x > 0`, where this is `arctan (y/x)`. -/
noncomputable def atan2 (y x : ℝ) : ℝ :=
  if 0 < x then Real.arctan (y / x)
  else if x < 0 then
    (if 0 ≤ y then Real.arctan (y / x) + Real.pi else Real.arctan (y / x) - Real.pi)
  else
    (if 0 < y then Real.pi / 2 else if y < 0 then -(Real.pi / 2) else 0)

/-- helpers.go `TerrainToPathXY`: rotates the terrain profile into the
path-aligned frame.  Returns the x list, the y list and the path length
`d2 = sqrt (d^2 + (p2-p1)^2)`.  For each sample `i`:
`verticalClearance = i*Δh + p1 - terrain[i]`,
`x[i] = (Δd*i)/cos θ - sin θ * verticalClearance`,
`y[i] = -(cos θ * verticalClearance)`, with `θ = atan2 (p2-p1) d`. -/
noncomputable def TerrainToPathXY (p1 p2 d : ℝ) (terrain : List ℝ) :
    List ℝ × List ℝ × ℝ :=
  let height := p2 - p1
  let θ := atan2 height d
  let d2 := Real.sqrt (d ^ 2 + height ^ 2)
  let Δh := height / ((terrain.length : ℝ) - 1)
  let Δd := d / ((terrain.length : ℝ) - 1)
  let x := (List.range terrain.length).map fun (i : ℕ) =>
    Δd * (i : ℝ) / Real.cos θ - Real.sin θ * ((i : ℝ) * Δh + p1 - terrain.getD i 0)
  let y := (List.range terrain.length).map fun (i : ℕ) =>
    -(Real.cos θ * ((i : ℝ) * Δh + p1 - terrain.getD i 0))
  (x, y, d2)

/-- The normalized x sequence produced by `TerrainToPathXY`. -/
noncomputable def pathX (p1 p2 d : ℝ) (terrain : List ℝ) : List ℝ :=
  (TerrainToPathXY p1 p2 d terrain).1

/-- The normalized y sequence produced by `TerrainToPathXY`. -/
noncomputable def pathY (p1 p2 d : ℝ) (terrain : List ℝ) : List ℝ :=
  (TerrainToPathXY p1 p2 d terrain).2.1

/-- The path length returned by `TerrainToPathXY`. -/
noncomputable def pathLen (p1 p2 d : ℝ) (terrain : List ℝ) : ℝ :=
  (TerrainToPathXY p1 p2 d terrain).2.2

/-- helpers.go `UnNormalisePoint`: rotates a normalized `(x, y)` point back to
absolute coordinates: `x1 = cos θ * x`, `y1 = sin θ * x`, `x2 = sin θ * y`,
`y2 = cos θ * y`, result `(x1 - x2, y1 + y2 + p1)`. -/
noncomputable def UnNormalisePoint (p1 p2 d x y : ℝ) : ℝ × ℝ :=
  let θ := atan2 (p2 - p1) d
  (Real.cos θ * x - Real.sin θ * y, Real.sin θ * x + Real.cos θ * y + p1)

/-- helpers.go `TerrainToPath`: the unrotated-clearance normalizer.  Note the
source sets `θ = sin (height / d)` (not an inverse trig function) and
`dist = cos θ * d`; per sample `diffs[i] = cos θ * (terrain[i] - (p1 + i*Δh))`.
Returns `(Δd, Δh, θ, diffs)`. -/
noncomputable def TerrainToPath (p1 p2 d : ℝ) (terrain : List ℝ) :
    ℝ × ℝ × ℝ × List ℝ :=
  let height := p2 - p1
  let θ := Real.sin (height / d)
  let dist := Real.cos θ * d
  let Δh := height / ((terrain.length : ℝ) - 1)
  let Δd := dist / ((terrain.length : ℝ) - 1)
  let diffs := (List.range terrain.length).map fun (i : ℕ) =>
    Real.cos θ * (terrain.getD i 0 - (p1 + (i : ℝ) * Δh))
  (Δd, Δh, θ, diffs)

/-- Modelled from the spec: largest clearance value of a profile scan
(the running maximum over the sample values). -/
noncomputable def profileMax : List ℝ → ℝ
  | [] => 0
  | [v] => v
  | v :: rest => max v (profileMax rest)

/-- Modelled from the spec: index of the first sample attaining the maximum
`m` during a left-to-right scan. -/
noncomputable def scanFirstIdx : List ℝ → ℝ → ℕ
  | [], _ => 0
  | v :: rest, m => if m ≤ v then 0 else scanFirstIdx rest m + 1

/-- Modelled from the spec: length of the run of consecutive samples equal to
`m` at the head of the list. -/
noncomputable def runLen : List ℝ → ℝ → ℕ
  | [], _ => 0
  | v :: rest, m => if v = m then runLen rest m + 1 else 0

/-- Modelled from the spec: `TerrainToFresnelKirchoff` is called by the
repository's tests (rf_test.go) but its definition is not under src.  Per
spec section 4.2 it runs the Path Normalizer in its unrotated-clearance form
(src's `TerrainToPath`), scans for the sample with the algebraically largest
clearance value (positive = obstructing), reports the position at the
midpoint of the run of adjacent samples tied for the maximum, and expresses
the distance along the sightline by dividing the along-profile spacing `Δd`
by `cos θ`.  Output `(highestImpingement, distanceToImpingement)`. -/
noncomputable def TerrainToFresnelKirchoff (p1 p2 d : ℝ) (terrain : List ℝ) :
    ℝ × ℝ :=
  let r := TerrainToPath p1 p2 d terrain
  let m := profileMax r.2.2.2
  let first := scanFirstIdx r.2.2.2 m
  let last := first + runLen (r.2.2.2.drop (first + 1)) m
  (m, ((first : ℝ) + (last : ℝ)) / 2 * r.1 / Real.cos r.2.2.1)

/-- rf.go `findBullingtonFigure12Angles`: running maxima of the two horizon
angles over the interior samples `i = 1 .. len(x)-2`, both starting from
`-π/2`. -/
noncomputable def findBullingtonFigure12Angles (x y : List ℝ) (d : ℝ) :
    ℝ × ℝ :=
  (List.range' 1 (x.length - 2)).foldl
    (fun m i =>
      let θ1 := atan2 (y.getD i 0) (x.getD i 0)
      let θ2 := atan2 (y.getD i 0) (d - x.getD i 0)
      (if θ1 > m.1 then θ1 else m.1, if θ2 > m.2 then θ2 else m.2))
    (-(Real.pi / 2), -(Real.pi / 2))

/-- rf.go `solveBullingtonFigureTwelveDist`: law-of-sines triangle solution.
`θa = π - θb - θc`, `r = l / sin θa`, `c = r * sin θc`; returns
`(dist, height) = (cos θb * c, sin θb * c)`.  There is no guard on
`sin θa`: the division is always performed and the return type carries no
error value. -/
noncomputable def solveBullingtonFigureTwelveDist (θb θc l : ℝ) : ℝ × ℝ :=
  let θa := Real.pi - θb - θc
  let r := l / Real.sin θa
  let c := r * Real.sin θc
  (Real.cos θb * c, Real.sin θb * c)

/-- rf.go `BullingtonFigure12Method`: normalize, find the two horizon angles,
solve the triangle; returns `(d1, d2, height)` with `d2 = l - d1`.  The
return type carries no error value. -/
noncomputable def BullingtonFigure12Method (p1 p2 d : ℝ) (terrain : List ℝ) :
    ℝ × ℝ × ℝ :=
  let r := TerrainToPathXY p1 p2 d terrain
  let angles := findBullingtonFigure12Angles r.1 r.2.1 r.2.2
  let s := solveBullingtonFigureTwelveDist angles.1 angles.2 r.2.2
  (s.1, r.2.2 - s.1, s.2)

/-- rf.go constant `C`: the speed of light in air, m/s. -/
def C : ℝ := 2.998e8

/-- rf.go `FrequencyToWavelength`: `wavelength = C / freq`. -/
noncomputable def FrequencyToWavelength (freq : ℝ) : ℝ := C / freq

/-- rf.go constant `FresnelMinDistanceWavelengthRadio` (0.1): minimum
distance-to-wavelength proportion for a valid Fresnel calculation. -/
def FresnelMinDistanceWavelengthRat : ℝ := 0.1

/-- rf.go `FresnelPoint`: first-kind Fresnel zone radius at a point splitting
the path into `d1` and `d2`; returns `none` (a Go error) when either distance
is not much greater than the wavelength. -/
noncomputable def FresnelPoint (d1 d2 freq : ℝ) (order : ℤ) : Option ℝ :=
  let wavelength := FrequencyToWavelength freq
  if d1 * FresnelMinDistanceWavelengthRat < wavelength ∨
      d2 * FresnelMinDistanceWavelengthRat < wavelength then none
  else some (Real.sqrt ((order : ℝ) * wavelength * d1 * d2 / (d1 + d2)))

/-- The per-sample impingement fraction computed in the loop body of
rf.go `FresnelImpingementMax`: 1 above `+fz/2`, 0 below `-fz/2`, linear
interpolation in between. -/
noncomputable def sampleFraction (yv fz : ℝ) : ℝ :=
  if yv > fz / 2 then 1
  else if yv < -(fz / 2) then 0
  else (yv + fz / 2) / fz

/-- One iteration of the scan loop of rf.go `FresnelImpingementMax`: a sample
whose Fresnel radius calculation fails is skipped; otherwise the running
maximum and its position are updated when the fraction strictly exceeds it. -/
noncomputable def impingementStep (f l : ℝ) (x y : List ℝ) (s : ℝ × ℝ)
    (i : ℕ) : ℝ × ℝ :=
  match FresnelPoint (x.getD i 0) (l - x.getD i 0) f 1 with
  | none => s
  | some fz =>
    if sampleFraction (y.getD i 0) fz > s.1
    then (sampleFraction (y.getD i 0) fz, x.getD i 0)
    else s

/-- rf.go `FresnelImpingementMax`: normalize the profile, then scan the
interior samples `i = 1 .. len(x)-2` starting from `(0, l/2)`. -/
noncomputable def FresnelImpingementMax (p1 p2 d f : ℝ) (terrain : List ℝ) :
    ℝ × ℝ :=
  let r := TerrainToPathXY p1 p2 d terrain
  (List.range' 1 (r.1.length - 2)).foldl
    (impingementStep f r.2.2 r.1 r.2.1) (0, r.2.2 / 2)

/-- Outcome of running a Go function: either a returned value or a
`log.Panicf` process abort with its message. -/
inductive GoOutcome (α : Type) where
  | ok (val : α)
  | aborts (msg : String)

/-- rf.go `CalculateRaleighFading`: the body is `log.Panicf(...)`, so every
call aborts the process before the `return 0.0, nil` line is reached. -/
def CalculateRaleighFading (_freq : ℝ) : GoOutcome (ℝ × Option String) :=
  .aborts "Raleigh fading not yet implemented"

/-- rf.go `CalculateRicanFading`: the body is `log.Panicf(...)`, so every
call aborts the process. -/
def CalculateRicanFading (_freq : ℝ) : GoOutcome (ℝ × Option String) :=
  .aborts "Rican fading not yet implemented"

/-- rf.go `CalculateWeibullFading`: the body is `log.Panicf(...)`, so every
call aborts the process. -/
def CalculateWeibullFading (_freq : ℝ) : GoOutcome (ℝ × Option String) :=
  .aborts "Weibull fading not yet implemented"

/-! Helper lemmas shared by the claim theorems. -/

lemma getD_map_range (f : ℕ → ℝ) (n i : ℕ) (h : i < n) :
    ((List.range n).map f).getD i 0 = f i := by
  rw [List.getD_eq_getElem _ _ (by simpa using h)]
  simp

lemma atan2_of_pos (y x : ℝ) (hx : 0 < x) : atan2 y x = Real.arctan (y / x) := by
  unfold atan2
  rw [if_pos hx]

lemma sqrt_sq_add_sq_pos (x y : ℝ) (hx : 0 < x) :
    0 < Real.sqrt (x ^ 2 + y ^ 2) := by
  apply Real.sqrt_pos.mpr
  positivity

lemma cos_atan2_of_pos (y x : ℝ) (hx : 0 < x) :
    Real.cos (atan2 y x) = x / Real.sqrt (x ^ 2 + y ^ 2) := by
  rw [atan2_of_pos y x hx, Real.cos_arctan]
  have h1 : (1 : ℝ) + (y / x) ^ 2 = (x ^ 2 + y ^ 2) / x ^ 2 := by
    field_simp
  rw [h1, Real.sqrt_div (by positivity) (x ^ 2), Real.sqrt_sq hx.le, one_div_div]

lemma sin_atan2_of_pos (y x : ℝ) (hx : 0 < x) :
    Real.sin (atan2 y x) = y / Real.sqrt (x ^ 2 + y ^ 2) := by
  rw [atan2_of_pos y x hx, Real.sin_arctan]
  have h1 : (1 : ℝ) + (y / x) ^ 2 = (x ^ 2 + y ^ 2) / x ^ 2 := by
    field_simp
  rw [h1, Real.sqrt_div (by positivity) (x ^ 2), Real.sqrt_sq hx.le]
  have hs : Real.sqrt (x ^ 2 + y ^ 2) ≠ 0 := (sqrt_sq_add_sq_pos x y hx).ne'
  field_simp

lemma cos_atan2_pos (y x : ℝ) (hx : 0 < x) : 0 < Real.cos (atan2 y x) := by
  rw [cos_atan2_of_pos y x hx]
  exact div_pos hx (sqrt_sq_add_sq_pos x y hx)

lemma pathX_length (p1 p2 d : ℝ) (terrain : List ℝ) :
    (pathX p1 p2 d terrain).length = terrain.length := by
  simp [pathX, TerrainToPathXY]

lemma pathY_length (p1 p2 d : ℝ) (terrain : List ℝ) :
    (pathY p1 p2 d terrain).length = terrain.length := by
  simp [pathY, TerrainToPathXY]

lemma pathLen_eq (p1 p2 d : ℝ) (terrain : List ℝ) :
    pathLen p1 p2 d terrain = Real.sqrt (d ^ 2 + (p2 - p1) ^ 2) := rfl

lemma pathX_getD (p1 p2 d : ℝ) (terrain : List ℝ) (i : ℕ)
    (h : i < terrain.length) :
    (pathX p1 p2 d terrain).getD i 0 =
      d / ((terrain.length : ℝ) - 1) * (i : ℝ) / Real.cos (atan2 (p2 - p1) d)
        - Real.sin (atan2 (p2 - p1) d) *
            ((i : ℝ) * ((p2 - p1) / ((terrain.length : ℝ) - 1)) + p1
              - terrain.getD i 0) := by
  unfold pathX TerrainToPathXY
  exact getD_map_range _ _ i h

lemma pathY_getD (p1 p2 d : ℝ) (terrain : List ℝ) (i : ℕ)
    (h : i < terrain.length) :
    (pathY p1 p2 d terrain).getD i 0 =
      -(Real.cos (atan2 (p2 - p1) d) *
          ((i : ℝ) * ((p2 - p1) / ((terrain.length : ℝ) - 1)) + p1
            - terrain.getD i 0)) := by
  unfold pathY TerrainToPathXY
  exact getD_map_range _ _ i h

lemma sqrt_twentyfive : Real.sqrt 25 = 5 := by
  rw [show (25 : ℝ) = 5 ^ 2 by norm_num, Real.sqrt_sq (by norm_num)]

lemma cos_atan2_three_four : Real.cos (atan2 3 4) = 4 / 5 := by
  rw [cos_atan2_of_pos 3 4 (by norm_num)]
  norm_num [sqrt_twentyfive]

lemma sin_atan2_three_four : Real.sin (atan2 3 4) = 3 / 5 := by
  rw [sin_atan2_of_pos 3 4 (by norm_num)]
  norm_num [sqrt_twentyfive]

/-- C1 (amended): for every p1, p2, d > 0 and terrain profile with at least 2
samples, `TerrainToPathXY` computes, with θ = atan2 (p2-p1) d and per-sample
clearance c_i = (p1 + i*(p2-p1)/(n-1)) - terrain[i], the outputs
x[i] = (i*d/(n-1))/cos θ - sin θ * c_i and y[i] = -(cos θ * c_i): the sign of
y is the opposite of the claimed one, so positive y means the terrain pierces
above the sightline (obstruction) and negative y means clearance. -/
theorem terrainToPathXY_formulas_amended (p1 p2 d : ℝ) (terrain : List ℝ)
    (hd : 0 < d) (hn : 2 ≤ terrain.length) (i : ℕ) (hi : i < terrain.length) :
    (pathX p1 p2 d terrain).getD i 0 =
      ((i : ℝ) * d / ((terrain.length : ℝ) - 1)) / Real.cos (atan2 (p2 - p1) d)
        - Real.sin (atan2 (p2 - p1) d) *
            ((p1 + (i : ℝ) * (p2 - p1) / ((terrain.length : ℝ) - 1))
              - terrain.getD i 0) ∧
    (pathY p1 p2 d terrain).getD i 0 =
      -(Real.cos (atan2 (p2 - p1) d) *
          ((p1 + (i : ℝ) * (p2 - p1) / ((terrain.length : ℝ) - 1))
            - terrain.getD i 0)) := by
  constructor
  · rw [pathX_getD p1 p2 d terrain i hi]
    ring
  · rw [pathY_getD p1 p2 d terrain i hi]
    ring

/-- C1 witness: the amended formulas evaluated at p1 = 0, p2 = 3, d = 4,
terrain = [0,0,0], i = 1. -/
theorem terrainToPathXY_formulas_amended_witness :
    (0 : ℝ) < 4 ∧ 2 ≤ ([0, 0, 0] : List ℝ).length ∧
      (pathY 0 3 4 [0, 0, 0]).getD 1 0 = -(6 / 5) := by
  refine ⟨by norm_num, by norm_num, ?_⟩
  have h := (terrainToPathXY_formulas_amended 0 3 4 [0, 0, 0] (by norm_num)
    (by norm_num) 1 (by norm_num)).2
  rw [h]
  norm_num [cos_atan2_three_four, List.getD]

/-- C1 counterexample: at p1 = 0, p2 = 3, d = 4, terrain = [0,0,0], i = 1 the
code's y[1] equals -6/5, not the claimed cos θ * c_1 = +6/5: the claimed sign
convention (positive y = clearance) is the reverse of the code's. -/
theorem terrainToPathXY_y_sign_counterexample :
    ¬ ((pathY 0 3 4 [0, 0, 0]).getD 1 0 =
        Real.cos (atan2 (3 - 0) 4) * ((0 + (1 : ℝ) * (3 - 0) / (3 - 1)) - 0)) := by
  rw [pathY_getD 0 3 4 [0, 0, 0] 1 (by norm_num)]
  norm_num [cos_atan2_three_four, List.getD]

/-- C4: applying `UnNormalisePoint` to each normalized sample produced by
`TerrainToPathXY` recovers the original absolute point
(i*d/(n-1), terrain[i]) exactly (hence within any floating tolerance). -/
theorem unNormalisePoint_roundTrip (p1 p2 d : ℝ) (terrain : List ℝ)
    (hd : 0 < d) (hn : 2 ≤ terrain.length) (i : ℕ) (hi : i < terrain.length) :
    UnNormalisePoint p1 p2 d ((pathX p1 p2 d terrain).getD i 0)
        ((pathY p1 p2 d terrain).getD i 0) =
      ((i : ℝ) * d / ((terrain.length : ℝ) - 1), terrain.getD i 0) := by
  have hx := pathX_getD p1 p2 d terrain i hi
  have hy := pathY_getD p1 p2 d terrain i hi
  have hsin := sin_atan2_of_pos (p2 - p1) d hd
  have hcos := cos_atan2_of_pos (p2 - p1) d hd
  have hlpos : 0 < Real.sqrt (d ^ 2 + (p2 - p1) ^ 2) :=
    sqrt_sq_add_sq_pos d (p2 - p1) hd
  have hl2 : Real.sqrt (d ^ 2 + (p2 - p1) ^ 2) ^ 2 = d ^ 2 + (p2 - p1) ^ 2 :=
    Real.sq_sqrt (by positivity)
  have hn1 : (0 : ℝ) < (terrain.length : ℝ) - 1 := by
    have h2 : (2 : ℝ) ≤ (terrain.length : ℝ) := by exact_mod_cast hn
    linarith
  have hcne : Real.cos (atan2 (p2 - p1) d) ≠ 0 := (cos_atan2_pos (p2 - p1) d hd).ne'
  have hs2c2 := Real.sin_sq_add_cos_sq (atan2 (p2 - p1) d)
  have hsd : Real.sin (atan2 (p2 - p1) d) * d
      = Real.cos (atan2 (p2 - p1) d) * (p2 - p1) := by
    rw [hsin, hcos]
    ring
  have hsdC : Real.sin (atan2 (p2 - p1) d) * d / Real.cos (atan2 (p2 - p1) d)
      = p2 - p1 := by
    rw [div_eq_iff hcne]
    linear_combination hsd
  simp only [UnNormalisePoint, Prod.mk.injEq]
  rw [hx, hy]
  constructor
  · rw [hsin, hcos]
    field_simp
    ring
  · linear_combination ((i : ℝ) / ((terrain.length : ℝ) - 1)) * hsdC +
      (-((i : ℝ) * ((p2 - p1) / ((terrain.length : ℝ) - 1)) + p1
          - terrain.getD i 0)) * hs2c2

/-- C4 witness: the round trip evaluated at p1 = 0, p2 = 3, d = 4,
terrain = [0,0,0], i = 1. -/
theorem unNormalisePoint_roundTrip_witness :
    (0 : ℝ) < 4 ∧ 2 ≤ ([0, 0, 0] : List ℝ).length ∧
      UnNormalisePoint 0 3 4 ((pathX 0 3 4 [0, 0, 0]).getD 1 0)
          ((pathY 0 3 4 [0, 0, 0]).getD 1 0) =
        (((1 : ℕ) : ℝ) * 4 / ((([0, 0, 0] : List ℝ).length : ℝ) - 1),
          ([0, 0, 0] : List ℝ).getD 1 0) :=
  ⟨by norm_num, by norm_num,
    unNormalisePoint_roundTrip 0 3 4 [0, 0, 0] (by norm_num) (by norm_num) 1
      (by norm_num)⟩

/-- C7 (amended): the endpoint samples of the normalized profile lie on the
sightline axis (y = 0) exactly when the terrain profile meets the endpoints,
i.e. terrain[0] = p1 and terrain[n-1] = p2; it is not true for arbitrary
inputs. -/
theorem terrainToPathXY_endpoints_amended (p1 p2 d : ℝ) (terrain : List ℝ)
    (hd : 0 < d) (hn : 2 ≤ terrain.length)
    (h0 : terrain.getD 0 0 = p1)
    (hN : terrain.getD (terrain.length - 1) 0 = p2) :
    (pathY p1 p2 d terrain).getD 0 0 = 0 ∧
      (pathY p1 p2 d terrain).getD (terrain.length - 1) 0 = 0 := by
  have hn0 : 0 < terrain.length := by omega
  have hc : ((terrain.length - 1 : ℕ) : ℝ) = (terrain.length : ℝ) - 1 := by
    have h1 : (1 : ℕ) ≤ terrain.length := by omega
    push_cast [Nat.cast_sub h1]
    ring
  have hne : ((terrain.length : ℝ) - 1) ≠ 0 := by
    have h2 : (2 : ℝ) ≤ (terrain.length : ℝ) := by exact_mod_cast hn
    linarith
  constructor
  · rw [pathY_getD p1 p2 d terrain 0 hn0, h0]
    simp
  · rw [pathY_getD p1 p2 d terrain (terrain.length - 1) (by omega), hN, hc]
    rw [mul_comm ((terrain.length : ℝ) - 1), div_mul_cancel₀ _ hne]
    ring

/-- C7 witness: the amended endpoint invariant at p1 = 1, p2 = 4, d = 4,
terrain = [1, 2.5, 4]. -/
theorem terrainToPathXY_endpoints_amended_witness :
    (0 : ℝ) < 4 ∧ ([1, 2.5, 4] : List ℝ).getD 0 0 = 1 ∧
      (pathY 1 4 4 [1, 2.5, 4]).getD 0 0 = 0 := by
  refine ⟨by norm_num, by norm_num [List.getD], ?_⟩
  exact (terrainToPathXY_endpoints_amended 1 4 4 [1, 2.5, 4] (by norm_num)
    (by norm_num) (by norm_num [List.getD]) (by norm_num [List.getD])).1

/-- C7 counterexample: at p1 = 1, p2 = 4, d = 4, terrain = [0,0,0] the first
normalized sample has y[0] = -4/5 ≠ 0: the endpoint invariant fails when the
terrain does not meet the endpoint heights. -/
theorem terrainToPathXY_endpoint_counterexample :
    (pathY 1 4 4 [0, 0, 0]).getD 0 0 ≠ 0 := by
  rw [pathY_getD 1 4 4 [0, 0, 0] 0 (by norm_num)]
  norm_num [cos_atan2_three_four, List.getD]

/-- C10: the inverse transform maps the normalized sightline endpoints back
to the original endpoints exactly: (0,0) to (0, p1) and (l, 0) to (d, p2)
with l = sqrt (d^2 + (p2-p1)^2). -/
theorem unNormalisePoint_endpoints (p1 p2 d : ℝ) (hd : 0 < d) :
    UnNormalisePoint p1 p2 d 0 0 = (0, p1) ∧
      UnNormalisePoint p1 p2 d (Real.sqrt (d ^ 2 + (p2 - p1) ^ 2)) 0 = (d, p2) := by
  have hsin := sin_atan2_of_pos (p2 - p1) d hd
  have hcos := cos_atan2_of_pos (p2 - p1) d hd
  have hlpos : 0 < Real.sqrt (d ^ 2 + (p2 - p1) ^ 2) :=
    sqrt_sq_add_sq_pos d (p2 - p1) hd
  constructor
  · simp [UnNormalisePoint]
  · simp only [UnNormalisePoint, Prod.mk.injEq]
    rw [hsin, hcos]
    constructor
    · field_simp
    · field_simp

/-- C10 witness: the endpoint mapping at p1 = 0, p2 = 3, d = 4. -/
theorem unNormalisePoint_endpoints_witness :
    (0 : ℝ) < 4 ∧ UnNormalisePoint 0 3 4 0 0 = (0, 0) :=
  ⟨by norm_num, (unNormalisePoint_endpoints 0 3 4 (by norm_num)).1⟩

lemma pathX_adjacent_diff (p1 p2 d : ℝ) (terrain : List ℝ) (hd : 0 < d)
    (hn : 2 ≤ terrain.length) (i : ℕ) (hi : i + 1 < terrain.length) :
    (pathX p1 p2 d terrain).getD (i + 1) 0 - (pathX p1 p2 d terrain).getD i 0
      = d ^ 2 / Real.sqrt (d ^ 2 + (p2 - p1) ^ 2) / ((terrain.length : ℝ) - 1)
        + Real.sin (atan2 (p2 - p1) d) *
            (terrain.getD (i + 1) 0 - terrain.getD i 0) := by
  have hlpos : 0 < Real.sqrt (d ^ 2 + (p2 - p1) ^ 2) :=
    sqrt_sq_add_sq_pos d (p2 - p1) hd
  have hl2 : Real.sqrt (d ^ 2 + (p2 - p1) ^ 2) ^ 2 = d ^ 2 + (p2 - p1) ^ 2 :=
    Real.sq_sqrt (by positivity)
  have hn1 : (0 : ℝ) < (terrain.length : ℝ) - 1 := by
    have h2 : (2 : ℝ) ≤ (terrain.length : ℝ) := by exact_mod_cast hn
    linarith
  have e : ∀ j : ℝ,
      d / ((terrain.length : ℝ) - 1) * j / (d / Real.sqrt (d ^ 2 + (p2 - p1) ^ 2))
        = Real.sqrt (d ^ 2 + (p2 - p1) ^ 2) * j / ((terrain.length : ℝ) - 1) := by
    intro j
    field_simp
    ring
  rw [pathX_getD p1 p2 d terrain (i + 1) hi,
    pathX_getD p1 p2 d terrain i (by omega),
    sin_atan2_of_pos (p2 - p1) d hd, cos_atan2_of_pos (p2 - p1) d hd]
  push_cast
  rw [e ((i : ℝ) + 1), e (i : ℝ)]
  have hl2d : Real.sqrt (d ^ 2 + (p2 - p1) ^ 2)
      = (d ^ 2 + (p2 - p1) ^ 2) / Real.sqrt (d ^ 2 + (p2 - p1) ^ 2) := by
    rw [eq_div_iff hlpos.ne']
    linear_combination hl2
  linear_combination (1 / ((terrain.length : ℝ) - 1)) * hl2d

/-- C8 (amended): the normalized x sequence is monotonically non-decreasing
whenever, in addition to |θ| < π/2, every terrain step satisfies
sin θ * (terrain[i+1] - terrain[i]) ≥ -d^2/(l*(n-1)) (for example for any
terrain when p1 = p2, or when the terrain increments are aligned with the
slope); for arbitrary terrain jumps the claim fails. -/
theorem pathX_monotone_amended (p1 p2 d : ℝ) (terrain : List ℝ)
    (hd : 0 < d) (hn : 2 ≤ terrain.length)
    (hθ : -(Real.pi / 2) < atan2 (p2 - p1) d ∧ atan2 (p2 - p1) d < Real.pi / 2)
    (hstep : ∀ i, i + 1 < terrain.length →
      -(d ^ 2 / Real.sqrt (d ^ 2 + (p2 - p1) ^ 2) / ((terrain.length : ℝ) - 1))
        ≤ Real.sin (atan2 (p2 - p1) d) *
            (terrain.getD (i + 1) 0 - terrain.getD i 0)) :
    ∀ i j, i ≤ j → j < terrain.length →
      (pathX p1 p2 d terrain).getD i 0 ≤ (pathX p1 p2 d terrain).getD j 0 := by
  have adj : ∀ i, i + 1 < terrain.length →
      (pathX p1 p2 d terrain).getD i 0 ≤ (pathX p1 p2 d terrain).getD (i + 1) 0 := by
    intro i hi
    have hdiff := pathX_adjacent_diff p1 p2 d terrain hd hn i hi
    have hs := hstep i hi
    linarith
  intro i j hij
  induction j, hij using Nat.le_induction with
  | base => intro _; exact le_refl _
  | succ n hin ih =>
    intro hlt
    exact le_trans (ih (by omega)) (adj n hlt)

/-- C8 witness: monotonicity at p1 = 0, p2 = 0, d = 4, terrain = [0, 0]. -/
theorem pathX_monotone_amended_witness :
    (0 : ℝ) < 4 ∧
      (pathX 0 0 4 [0, 0]).getD 0 0 ≤ (pathX 0 0 4 [0, 0]).getD 1 0 := by
  refine ⟨by norm_num, ?_⟩
  refine pathX_monotone_amended 0 0 4 [0, 0] (by norm_num) (by norm_num)
    ⟨?_, ?_⟩ ?_ 0 1 (by norm_num) (by norm_num)
  · rw [atan2_of_pos _ _ (by norm_num : (0 : ℝ) < 4)]
    exact Real.neg_pi_div_two_lt_arctan _
  · rw [atan2_of_pos _ _ (by norm_num : (0 : ℝ) < 4)]
    exact Real.arctan_lt_pi_div_two _
  · intro i hi
    have hi0 : i = 0 := by
      simp at hi
      omega
    subst hi0
    have h1 : ([0, 0] : List ℝ).getD 1 0 - ([0, 0] : List ℝ).getD 0 0 = 0 := by
      norm_num [List.getD]
    rw [h1, mul_zero]
    have hlen : ((([0, 0] : List ℝ).length : ℝ) - 1) = 1 := by norm_num
    rw [hlen]
    refine neg_nonpos.mpr ?_
    positivity

/-- C8 counterexample: at p1 = 0, p2 = 3, d = 4 (so |θ| < π/2) and terrain
[0, 10, 0], the normalized x sequence decreases: x[2] = 16/5 < 38/5 = x[1]. -/
theorem pathX_monotone_counterexample :
    (-(Real.pi / 2) < atan2 (3 - 0) 4 ∧ atan2 (3 - 0) 4 < Real.pi / 2) ∧
      (pathX 0 3 4 [0, 10, 0]).getD 2 0 < (pathX 0 3 4 [0, 10, 0]).getD 1 0 := by
  refine ⟨⟨?_, ?_⟩, ?_⟩
  · rw [atan2_of_pos _ _ (by norm_num : (0 : ℝ) < 4)]
    exact Real.neg_pi_div_two_lt_arctan _
  · rw [atan2_of_pos _ _ (by norm_num : (0 : ℝ) < 4)]
    exact Real.arctan_lt_pi_div_two _
  · rw [pathX_getD 0 3 4 [0, 10, 0] 2 (by norm_num),
      pathX_getD 0 3 4 [0, 10, 0] 1 (by norm_num)]
    norm_num [cos_atan2_three_four, sin_atan2_three_four, List.getD]

lemma if_gt_eq_max (a b : ℝ) : (if b > a then b else a) = max a b := by
  rcases lt_or_le a b with h | h
  · rw [if_pos h, max_eq_right h.le]
  · rw [if_neg (not_lt.mpr h), max_eq_left h]

lemma foldl_pair_if_max (f g : ℕ → ℝ) (L : List ℕ) (a b : ℝ) :
    L.foldl (fun m i =>
        (if f i > m.1 then f i else m.1, if g i > m.2 then g i else m.2)) (a, b)
      = ((L.map f).foldl max a, (L.map g).foldl max b) := by
  induction L generalizing a b with
  | nil => rfl
  | cons hd tl ih =>
    simp only [List.foldl_cons, List.map_cons]
    rw [if_gt_eq_max, if_gt_eq_max]
    exact ih (max a (f hd)) (max b (g hd))

/-- C5: `findBullingtonFigure12Angles` returns the running maxima, started at
-π/2, of atan2 (y[i]) (x[i]) and atan2 (y[i]) (l - x[i]) over the interior
samples i = 1 .. n-2; for a 2-point profile the loop body never runs and both
returned angles equal -π/2. -/
theorem findBullingtonAngles_running_maxima (x y : List ℝ) (d : ℝ) :
    findBullingtonFigure12Angles x y d =
      (((List.range' 1 (x.length - 2)).map fun i =>
            atan2 (y.getD i 0) (x.getD i 0)).foldl max (-(Real.pi / 2)),
        ((List.range' 1 (x.length - 2)).map fun i =>
            atan2 (y.getD i 0) (d - x.getD i 0)).foldl max (-(Real.pi / 2))) ∧
      (x.length = 2 →
        findBullingtonFigure12Angles x y d = (-(Real.pi / 2), -(Real.pi / 2))) := by
  constructor
  · simp only [findBullingtonFigure12Angles]
    exact foldl_pair_if_max (fun i => atan2 (y.getD i 0) (x.getD i 0))
      (fun i => atan2 (y.getD i 0) (d - x.getD i 0)) _ _ _
  · intro h2
    simp [findBullingtonFigure12Angles, h2]

/-- C5 witness: for the 2-point profile x = [0, 5], y = [0, 0], l = 5 both
returned angles are -π/2. -/
theorem findBullingtonAngles_running_maxima_witness :
    ([0, 5] : List ℝ).length = 2 ∧
      findBullingtonFigure12Angles [0, 5] [0, 0] 5
        = (-(Real.pi / 2), -(Real.pi / 2)) :=
  ⟨by norm_num,
    (findBullingtonAngles_running_maxima [0, 5] [0, 0] 5).2 (by norm_num)⟩

/-- C2 evaluation: on the degenerate input θ1 = θ2 = π/2 (so θ1 + θ2 ≥ π),
`solveBullingtonFigureTwelveDist` performs the division l / sin θa anyway and
returns a plain pair (no error value exists in its type); under the real-
arithmetic convention x/0 = 0 the returned pair is (0, 0), while Go float64
division produces non-finite values.  No domain error is reported. -/
theorem solveBullingtonDegenerate_eval :
    Real.pi ≤ Real.pi / 2 + Real.pi / 2 ∧
      solveBullingtonFigureTwelveDist (Real.pi / 2) (Real.pi / 2) 10 = (0, 0) := by
  constructor
  · linarith
  · simp only [solveBullingtonFigureTwelveDist]
    rw [show Real.pi - Real.pi / 2 - Real.pi / 2 = 0 by ring]
    simp

lemma terrainToPath_concrete_diffs :
    (TerrainToPath 1 1 2 [0, 0, 1.5, 1.5, 0]).2.2.2 = [-1, -1, 1 / 2, 1 / 2, -1] := by
  simp only [TerrainToPath]
  norm_num [List.range_succ, Real.sin_zero, Real.cos_zero, List.getD]

lemma terrainToPath_concrete_spacing :
    (TerrainToPath 1 1 2 [0, 0, 1.5, 1.5, 0]).1 = 1 / 2 := by
  simp only [TerrainToPath]
  norm_num [Real.sin_zero, Real.cos_zero]

lemma terrainToPath_concrete_angle :
    (TerrainToPath 1 1 2 [0, 0, 1.5, 1.5, 0]).2.2.1 = 0 := by
  simp only [TerrainToPath]
  norm_num [Real.sin_zero]

/-- C3: the Fresnel-Kirchhoff reducer over terrain [0, 0, 1.5, 1.5, 0] with
p1 = 1, p2 = 1, d = 2 reports the greatest obstruction 0.5 at position 1.25,
the midpoint of the run of the two tied maximal samples (indices 2 and 3),
not at the first (1.0) or last (1.5) tied sample. -/
theorem terrainToFresnelKirchoff_concrete_midpoint :
    TerrainToFresnelKirchoff 1 1 2 [0, 0, 1.5, 1.5, 0] = (0.5, 1.25) := by
  simp only [TerrainToFresnelKirchoff]
  rw [terrainToPath_concrete_diffs, terrainToPath_concrete_spacing,
    terrainToPath_concrete_angle]
  have hm : profileMax [(-1 : ℝ), -1, 1 / 2, 1 / 2, -1] = 1 / 2 := by
    norm_num [profileMax]
  rw [hm]
  have hfirst : scanFirstIdx [(-1 : ℝ), -1, 1 / 2, 1 / 2, -1] (1 / 2) = 2 := by
    norm_num [scanFirstIdx]
  rw [hfirst]
  have hdrop : ([(-1 : ℝ), -1, 1 / 2, 1 / 2, -1].drop (2 + 1)) = [1 / 2, -1] := rfl
  rw [hdrop]
  have hrun : runLen [(1 / 2 : ℝ), -1] (1 / 2) = 1 := by
    norm_num [runLen]
  rw [hrun]
  norm_num [Real.cos_zero]

lemma fresnelPoint_nonneg (d1 d2 f : ℝ) (o : ℤ) (fz : ℝ)
    (h : FresnelPoint d1 d2 f o = some fz) : 0 ≤ fz := by
  simp only [FresnelPoint] at h
  split_ifs at h
  all_goals
    first
      | exact Option.noConfusion h
      | (rw [Option.some_inj] at h
         rw [← h]
         exact Real.sqrt_nonneg _)

lemma impingementStep_none (f l : ℝ) (x y : List ℝ) (s : ℝ × ℝ) (i : ℕ)
    (hfp : FresnelPoint (x.getD i 0) (l - x.getD i 0) f 1 = none) :
    impingementStep f l x y s i = s := by
  unfold impingementStep
  rw [hfp]

lemma impingementStep_some (f l : ℝ) (x y : List ℝ) (s : ℝ × ℝ) (i : ℕ)
    (fz : ℝ)
    (hfp : FresnelPoint (x.getD i 0) (l - x.getD i 0) f 1 = some fz) :
    impingementStep f l x y s i =
      if sampleFraction (y.getD i 0) fz > s.1
      then (sampleFraction (y.getD i 0) fz, x.getD i 0) else s := by
  unfold impingementStep
  rw [hfp]

lemma sampleFraction_nonneg_le_one (yv fz : ℝ) (h : 0 ≤ fz) :
    0 ≤ sampleFraction yv fz ∧ sampleFraction yv fz ≤ 1 := by
  unfold sampleFraction
  split_ifs with h1 h2
  · norm_num
  · norm_num
  · push_neg at h1 h2
    rcases eq_or_lt_of_le h with hz | hz
    · rw [← hz]
      norm_num
    · constructor
      · apply div_nonneg _ hz.le
        linarith
      · rw [div_le_one hz]
        linarith

lemma impingementStep_fst_le (f l : ℝ) (x y : List ℝ) (s : ℝ × ℝ) (i : ℕ) :
    s.1 ≤ (impingementStep f l x y s i).1 := by
  rcases hfp : FresnelPoint (x.getD i 0) (l - x.getD i 0) f 1 with _ | fz
  · rw [impingementStep_none f l x y s i hfp]
  · rw [impingementStep_some f l x y s i fz hfp]
    split_ifs with hgt
    · exact le_of_lt hgt
    · exact le_refl _

lemma impingementStep_fst_le_one (f l : ℝ) (x y : List ℝ) (s : ℝ × ℝ) (i : ℕ)
    (h1 : s.1 ≤ 1) : (impingementStep f l x y s i).1 ≤ 1 := by
  rcases hfp : FresnelPoint (x.getD i 0) (l - x.getD i 0) f 1 with _ | fz
  · rw [impingementStep_none f l x y s i hfp]
    exact h1
  · rw [impingementStep_some f l x y s i fz hfp]
    split_ifs with hgt
    · exact (sampleFraction_nonneg_le_one (y.getD i 0) fz
        (fresnelPoint_nonneg _ _ _ _ _ hfp)).2
    · exact h1

lemma foldl_impingement_fst_le (f l : ℝ) (x y : List ℝ) (L : List ℕ)
    (s : ℝ × ℝ) : s.1 ≤ (L.foldl (impingementStep f l x y) s).1 := by
  induction L generalizing s with
  | nil => exact le_refl _
  | cons hd tl ih =>
    simp only [List.foldl_cons]
    exact le_trans (impingementStep_fst_le f l x y s hd) (ih _)

lemma foldl_impingement_bounds (f l : ℝ) (x y : List ℝ) (L : List ℕ)
    (s : ℝ × ℝ) (h0 : 0 ≤ s.1) (h1 : s.1 ≤ 1) :
    0 ≤ (L.foldl (impingementStep f l x y) s).1 ∧
      (L.foldl (impingementStep f l x y) s).1 ≤ 1 := by
  induction L generalizing s with
  | nil => exact ⟨h0, h1⟩
  | cons hd tl ih =>
    simp only [List.foldl_cons]
    exact ih _ (le_trans h0 (impingementStep_fst_le f l x y s hd))
      (impingementStep_fst_le_one f l x y s hd h1)

lemma foldl_impingement_ub (f l : ℝ) (x y : List ℝ) (L : List ℕ) (s : ℝ × ℝ) :
    ∀ i ∈ L, ∀ fz, FresnelPoint (x.getD i 0) (l - x.getD i 0) f 1 = some fz →
      sampleFraction (y.getD i 0) fz ≤ (L.foldl (impingementStep f l x y) s).1 := by
  induction L generalizing s with
  | nil =>
    intro i hi
    exact absurd hi (List.not_mem_nil i)
  | cons hd tl ih =>
    intro i hi fz hfp
    simp only [List.foldl_cons]
    rcases List.mem_cons.mp hi with rfl | htl
    · refine le_trans ?_ (foldl_impingement_fst_le f l x y tl _)
      rw [impingementStep_some f l x y s i fz hfp]
      split_ifs with hgt
      · exact le_refl _
      · exact not_lt.mp hgt
    · exact ih _ i htl fz hfp

lemma foldl_impingement_skip_all (f l : ℝ) (x y : List ℝ) (L : List ℕ)
    (s : ℝ × ℝ)
    (h : ∀ i ∈ L, FresnelPoint (x.getD i 0) (l - x.getD i 0) f 1 = none) :
    L.foldl (impingementStep f l x y) s = s := by
  induction L generalizing s with
  | nil => rfl
  | cons hd tl ih =>
    simp only [List.foldl_cons]
    rw [impingementStep_none f l x y s hd (h hd (List.mem_cons_self hd tl))]
    exact ih _ fun i hi => h i (List.mem_cons_of_mem hd hi)

lemma foldl_impingement_attain (f l : ℝ) (x y : List ℝ) (L : List ℕ)
    (s : ℝ × ℝ) :
    L.foldl (impingementStep f l x y) s = s ∨
      ∃ i ∈ L, ∃ fz,
        FresnelPoint (x.getD i 0) (l - x.getD i 0) f 1 = some fz ∧
          L.foldl (impingementStep f l x y) s
            = (sampleFraction (y.getD i 0) fz, x.getD i 0) := by
  induction L generalizing s with
  | nil => exact Or.inl rfl
  | cons hd tl ih =>
    simp only [List.foldl_cons]
    rcases ih (impingementStep f l x y s hd) with heq | ⟨i, hi, fz, hfp, heq⟩
    · rw [heq]
      rcases hfp : FresnelPoint (x.getD hd 0) (l - x.getD hd 0) f 1 with _ | fz
      · rw [impingementStep_none f l x y s hd hfp]
        exact Or.inl rfl
      · rw [impingementStep_some f l x y s hd fz hfp]
        split_ifs with hgt
        · exact Or.inr ⟨hd, List.mem_cons_self hd tl, fz, hfp, rfl⟩
        · exact Or.inl rfl
    · exact Or.inr ⟨i, List.mem_cons_of_mem hd hi, fz, hfp, heq⟩

/-- C6: the impingement scanner skips samples whose Fresnel-radius
calculation fails instead of aborting; every computed fraction lies in
[0, 1] (1 above +fz/2, 0 below -fz/2, linear in between), so the returned
maximum lies in [0, 1]; the returned fraction is an upper bound of every
valid sample's fraction and is attained together with its position; and when
every interior sample is skipped the scanner returns fraction 0 at the path
midpoint l/2. -/
theorem fresnelImpingementMax_spec (p1 p2 d f : ℝ) (terrain : List ℝ) :
    (∀ yv fz : ℝ, 0 ≤ fz →
        0 ≤ sampleFraction yv fz ∧ sampleFraction yv fz ≤ 1) ∧
    0 ≤ (FresnelImpingementMax p1 p2 d f terrain).1 ∧
    (FresnelImpingementMax p1 p2 d f terrain).1 ≤ 1 ∧
    ((∀ i ∈ List.range' 1 ((pathX p1 p2 d terrain).length - 2),
        FresnelPoint ((pathX p1 p2 d terrain).getD i 0)
          (pathLen p1 p2 d terrain - (pathX p1 p2 d terrain).getD i 0) f 1
            = none) →
      FresnelImpingementMax p1 p2 d f terrain
        = (0, pathLen p1 p2 d terrain / 2)) ∧
    (∀ i ∈ List.range' 1 ((pathX p1 p2 d terrain).length - 2), ∀ fz,
      FresnelPoint ((pathX p1 p2 d terrain).getD i 0)
          (pathLen p1 p2 d terrain - (pathX p1 p2 d terrain).getD i 0) f 1
          = some fz →
        sampleFraction ((pathY p1 p2 d terrain).getD i 0) fz
          ≤ (FresnelImpingementMax p1 p2 d f terrain).1) ∧
    (FresnelImpingementMax p1 p2 d f terrain
        = (0, pathLen p1 p2 d terrain / 2) ∨
      ∃ i ∈ List.range' 1 ((pathX p1 p2 d terrain).length - 2), ∃ fz,
        FresnelPoint ((pathX p1 p2 d terrain).getD i 0)
            (pathLen p1 p2 d terrain - (pathX p1 p2 d terrain).getD i 0) f 1
            = some fz ∧
          FresnelImpingementMax p1 p2 d f terrain
            = (sampleFraction ((pathY p1 p2 d terrain).getD i 0) fz,
                (pathX p1 p2 d terrain).getD i 0)) := by
  have hrfl : FresnelImpingementMax p1 p2 d f terrain
      = (List.range' 1 ((pathX p1 p2 d terrain).length - 2)).foldl
          (impingementStep f (pathLen p1 p2 d terrain) (pathX p1 p2 d terrain)
            (pathY p1 p2 d terrain)) (0, pathLen p1 p2 d terrain / 2) := rfl
  refine ⟨fun yv fz h => sampleFraction_nonneg_le_one yv fz h, ?_, ?_, ?_, ?_, ?_⟩
  · rw [hrfl]
    exact (foldl_impingement_bounds _ _ _ _ _ _ (by norm_num) (by norm_num)).1
  · rw [hrfl]
    exact (foldl_impingement_bounds _ _ _ _ _ _ (by norm_num) (by norm_num)).2
  · intro h
    rw [hrfl]
    exact foldl_impingement_skip_all _ _ _ _ _ _ h
  · intro i hi fz hfp
    rw [hrfl]
    exact foldl_impingement_ub _ _ _ _ _ _ i hi fz hfp
  · rw [hrfl]
    exact foldl_impingement_attain _ _ _ _ _ _

/-- C6 witness: the scanner's returned fraction lies in [0, 1] on the
repository's own no-impingement test input (p1 = p2 = 0, d = 50 m,
f = 433 MHz, terrain 100 m below the sightline). -/
theorem fresnelImpingementMax_spec_witness :
    0 ≤ (FresnelImpingementMax 0 0 50 433000000 [-100, -100, -100, -100, -100]).1 ∧
      (FresnelImpingementMax 0 0 50 433000000 [-100, -100, -100, -100, -100]).1 ≤ 1 :=
  ⟨(fresnelImpingementMax_spec 0 0 50 433000000 [-100, -100, -100, -100, -100]).2.1,
    (fresnelImpingementMax_spec 0 0 50 433000000 [-100, -100, -100, -100, -100]).2.2.1⟩

/-- C9 evaluation: every call of each of the three fading entry points
reaches `log.Panicf` and aborts the process; none of them is omitted from
the build and none returns a value. -/
theorem fadingStubs_abort_eval (freq : ℝ) :
    CalculateRaleighFading freq
        = GoOutcome.aborts "Raleigh fading not yet implemented" ∧
      CalculateRicanFading freq
        = GoOutcome.aborts "Rican fading not yet implemented" ∧
      CalculateWeibullFading freq
        = GoOutcome.aborts "Weibull fading not yet implemented" :=
  ⟨rfl, rfl, rfl⟩

end RF
